import Mathlib

/-!
Verification development for the repo-analyzer core: a shallow embedding of
the dependency analyzer (`src/analyzers/dependency_analyzer.py`), the shared
parser plumbing (`src/parsers/generic_parser.py`, `python_parser.py`,
`javascript_parser.py`) and the per-file parse loop of `src/main.py`,
together with theorems settling the specification claims about them.

Paths in this repository are relative POSIX paths ('/'-separated, no leading
slash), so the `os.path` helpers are embedded for that case.  Python strings
are modelled as Lean `String` (a structure over `List Char` in this
toolchain), and all helpers are written against the character list so that
every definition evaluates by kernel reduction.
-/

namespace RepoAnalyzer

/-- Characters of a string (Python strings are sequences of code points). -/
def strChars (s : String) : List Char := s.data

/-- String from characters. -/
def strOfChars (cs : List Char) : String := ⟨cs⟩

/-- Python `s.startswith(pre)`. -/
def strStartsWith (s pre : String) : Bool := pre.data.isPrefixOf s.data

/-- Python `s.endswith(suf)`. -/
def strEndsWith (s suf : String) : Bool := suf.data.isSuffixOf s.data

/-- Python `s.strip()` (whitespace at both ends removed). -/
def strTrim (s : String) : String :=
  ⟨((s.data.dropWhile Char.isWhitespace).reverse.dropWhile Char.isWhitespace).reverse⟩

/-- Python `s.lstrip('/')`. -/
def lstripSlashes (s : String) : String := ⟨s.data.dropWhile (· = '/')⟩

/-- Python `s[n:]`. -/
def strDrop (s : String) (n : Nat) : String := ⟨s.data.drop n⟩

/-- Number of leading `'.'` characters, as counted by the loop in
`DependencyAnalyzer._resolve_import` (lines 103-106). -/
def countLeadingDots (s : String) : Nat := (s.data.takeWhile (· = '.')).length

/-- Substring occurrence over character lists (Python `sub in s`). -/
def charsContains (needle : List Char) : List Char → Bool
  | [] => needle.isEmpty
  | c :: cs => if needle.isPrefixOf (c :: cs) then true else charsContains needle cs

/-- Python `sub in s` for strings. -/
def strContains (s sub : String) : Bool := charsContains sub.data s.data

/-- Python `s.upper()` for the ASCII method names it is applied to. -/
def strUpper (s : String) : String := ⟨s.data.map Char.toUpper⟩

/-- Split a character list on a separator character, like Python `str.split`. -/
def splitChars (sep : Char) : List Char → List (List Char)
  | [] => [[]]
  | c :: cs =>
    let r := splitChars sep cs
    if c = sep then [] :: r
    else
      match r with
      | h :: t => (c :: h) :: t
      | [] => [[c]]

/-- Python `s.split(sep)` for a single-character separator. -/
def strSplitOn (s : String) (sep : Char) : List String :=
  (splitChars sep s.data).map strOfChars

/-- Python `str.splitlines()` for '\n'-terminated text: like splitting on
'\n' except that a trailing newline does not produce a final empty line. -/
def strSplitLines (s : String) : List String :=
  if s.data = [] then []
  else
    let parts := strSplitOn s '\n'
    if strEndsWith s "\n" then parts.dropLast else parts

/-- Join lines with '\n' (inverse of `strSplitLines` on newline-free lines). -/
def unlines (ls : List String) : String :=
  ⟨List.intercalate ['\n'] (ls.map String.data)⟩

/-- Embeds `os.path.dirname` for relative POSIX paths: everything before the
last '/', with trailing slashes stripped; "" when there is no '/'. -/
def dirname (p : String) : String :=
  ⟨(((p.data.reverse.dropWhile (· ≠ '/')).dropWhile (· = '/')).reverse)⟩

/-- Embeds `os.path.basename` for relative POSIX paths. -/
def basename (p : String) : String :=
  ⟨(p.data.reverse.takeWhile (· ≠ '/')).reverse⟩

/-- Index of the last '.' in a character list, if any. -/
def lastDotIdx (cs : List Char) : Option Nat :=
  match cs.reverse.findIdx? (· = '.') with
  | none => none
  | some j => some (cs.length - 1 - j)

/-- Embeds `os.path.splitext` on a basename: split at the last dot unless
every character before it is a dot (so ".py" does not split). -/
def splitext (name : String) : String × String :=
  match lastDotIdx name.data with
  | none => (name, "")
  | some i =>
    if (name.data.take i).all (· = '.') then (name, "")
    else (⟨name.data.take i⟩, ⟨name.data.drop i⟩)

/-- Embeds `os.path.join` for the relative, already-slash-stripped second
arguments produced inside `_resolve_import`. -/
def pathJoin (a b : String) : String :=
  if a = "" then b else if b = "" then a ++ "/" else a ++ "/" ++ b

/-- Iterated `os.path.dirname`, for the `for _ in range(dot_count - 1)` walk
of `_resolve_import` (lines 109-110). -/
def upDirs : Nat → String → String
  | 0, d => d
  | n + 1, d => upDirs n (dirname d)

/-! ## Data model

`FileRecord` entries from the scanner carry a repo-relative path and a
language tag ('language' may be None).  Parser results are Python dicts;
each optional field below models the presence of the corresponding key
(outer `Option` = key present or absent), matching the membership tests the
analyzer performs ('imports' not in parse_result, 'module_docstring' in
parse_result, ...). Fields of the dicts that no analyzed code reads
(alias targets, byte sizes, ...) are carried only where a claim needs them.
-/

structure FileRec where
  path : String
  language : Option String := none
deriving DecidableEq

/-- One entry of a parse result's 'imports' list. `type` selects which key
the graph builder reads the module token from. -/
structure ImportInfo where
  type : String
  name : Option String := none
  module : Option String := none
  alias' : Option String := none
  line_number : Nat := 0
deriving DecidableEq

/-- The 'summary' sub-dict produced by `GenericParser.extract_file_summary`;
only `file_name` is read downstream (key-module descriptions). -/
structure ParseSummary where
  file_path : String := ""
  file_name : Option String := none
  directory : String := ""
deriving DecidableEq

/-- One entry of the 'api_endpoints' list the Python parser produces
(python_parser.py lines 308-314, 325-331 and 356-361); Flask/FastAPI
entries carry `methods` and `function`, Django entries carry `view`. -/
structure PyEndpoint where
  type : String
  route : String
  methods : Option (List String) := none
  function : Option String := none
  view : Option String := none
  line_number : Nat := 0
deriving DecidableEq

/-- A parser result dict.  `error` models the `{'error': ...}` dict returned
for unreadable/unparseable files; `module_docstring` is doubly optional: the
key may be absent, and when present its value may be Python `None`. -/
structure ParseResult where
  error : Option String := none
  summary : Option ParseSummary := none
  imports : Option (List ImportInfo) := none
  module_docstring : Option (Option String) := none
  api_endpoints : Option (List PyEndpoint) := none
deriving DecidableEq

/-! ## Association-list maps

Python dicts preserve insertion order; `defaultdict(set)` values are
deduplicated lists in insertion order.  The maps below model exactly that. -/

/-- Dict assignment `m[k] = v`: overwrite in place, else append (insertion
order preserved, last write wins). -/
def mapSet (m : List (String × String)) (k v : String) : List (String × String) :=
  if m.any (fun p => p.1 = k) then m.map (fun p => if p.1 = k then (k, v) else p)
  else m ++ [(k, v)]

/-- Dict lookup returning `none` for a missing key. -/
def mapGet? (m : List (String × String)) (k : String) : Option String :=
  (m.find? (fun p => p.1 = k)).map (fun p => p.2)

/-- A `defaultdict(set)`-style adjacency map. -/
abbrev Graph := List (String × List String)

/-- `g[k].add(v)` on a `defaultdict(set)`: create the key on first touch,
ignore a duplicate member. -/
def addEdge (g : Graph) (k v : String) : Graph :=
  if g.any (fun p => p.1 = k) then
    g.map (fun p => if p.1 = k then (p.1, if v ∈ p.2 then p.2 else p.2 ++ [v]) else p)
  else g ++ [(k, [v])]

/-- `g.get(k, [])`. -/
def graphGetD (g : Graph) (k : String) : List String :=
  ((g.find? (fun p => p.1 = k)).map (fun p => p.2)).getD []

/-- The keys of an adjacency map, in insertion order. -/
def graphKeys (g : Graph) : List String := g.map (fun p => p.1)

/-- The edge list of an adjacency map: the `for k, vs in g: for v in vs`
iteration used when emitting graph edges (lines 372-377 and 438-443). -/
def graphPairs (g : Graph) : List (String × String) :=
  g.flatMap (fun p => p.2.map (fun t => (p.1, t)))

/-- A `defaultdict(list)`-style grouping map: always append the value. -/
def listAppendEntry (g : Graph) (k v : String) : Graph :=
  if g.any (fun p => p.1 = k) then
    g.map (fun p => if p.1 = k then (p.1, p.2 ++ [v]) else p)
  else g ++ [(k, [v])]

/-! ## Module index (`DependencyAnalyzer._build_module_mapping`, lines 62-86)

For every file, register its base name without extension; for
`__init__.py` and `index.js/.jsx/.ts/.tsx` additionally register the
containing directory's own name, mapped to the directory path. -/

def buildModuleMapping (fileData : List FileRec) : List (String × String) :=
  fileData.foldl
    (fun m fi =>
      let fileName := basename fi.path
      let moduleName := (splitext fileName).1
      let m1 := mapSet m moduleName fi.path
      let m2 :=
        if fileName = "__init__.py" then
          mapSet m1 (basename (dirname fi.path)) (dirname fi.path)
        else m1
      if fileName = "index.js" ∨ fileName = "index.jsx" ∨ fileName = "index.ts" ∨
          fileName = "index.tsx" then
        mapSet m2 (basename (dirname fi.path)) (dirname fi.path)
      else m2)
    []

/-! ## Import resolver (`DependencyAnalyzer._resolve_import`, lines 88-141) -/

def resolveImport (fileData : List FileRec) (mapping : List (String × String))
    (importingFile importPath : String) : Option String :=
  if strStartsWith importPath "." then
    let dotCount := countLeadingDots importPath
    let baseDir := upDirs (dotCount - 1) (dirname importingFile)
    let relPath := lstripSlashes (strDrop importPath dotCount)
    match mapGet? mapping relPath with
    | some p => some p
    | none =>
      let dirPath := pathJoin baseDir relPath
      if fileData.any (fun f => dirname f.path = dirPath) then some dirPath else none
  else
    match mapGet? mapping importPath with
    | some p => some p
    | none =>
      let parts := strSplitOn importPath '/'
      match mapGet? mapping (parts.headD "") with
      | some basePath =>
        if parts.length > 1 then
          let remaining := String.intercalate "/" parts.tail
          let submodule := pathJoin (dirname basePath) remaining
          if fileData.any (fun f => f.path = submodule) then some submodule else none
        else none
      | none => none

/-! ## Dependency graph builder (`DependencyAnalyzer._build_dependency_graph`,
lines 143-180) -/

/-- Module token selection by the `import_info.get('type')` chain of
lines 156-166. -/
def moduleNameOf (imp : ImportInfo) : Option String :=
  if imp.type = "import" then imp.name
  else if imp.type = "from_import" then imp.module
  else if imp.type = "named_import" ∨ imp.type = "default_import" then imp.module
  else if imp.type = "namespace_import" then imp.module
  else if imp.type = "side_effect_import" then imp.module
  else none

/-- The edge one entry of an import list contributes, if any: skip falsy
module names (None and ""), skip tokens with an external-package leading
pattern (line 172), then resolve; a resolved target yields the
forward edge `(importing file, target)`. -/
def importEdge (fileData : List FileRec) (mapping : List (String × String))
    (filePath : String) (imp : ImportInfo) : Option (String × String) :=
  match moduleNameOf imp with
  | none => none
  | some m =>
    if m = "" then none
    else if strStartsWith m "http" || strStartsWith m "https" || strStartsWith m "@" then none
    else (resolveImport fileData mapping filePath m).map (fun t => (filePath, t))

/-- Edges contributed by one parser-result entry; a dict without an
'imports' key (for instance the `{'error': ...}` dict of a failed parse) is
skipped (line 149-150). -/
def fileEdges (fileData : List FileRec) (mapping : List (String × String))
    (entry : String × ParseResult) : List (String × String) :=
  match entry.2.imports with
  | none => []
  | some imps => imps.filterMap (importEdge fileData mapping entry.1)

/-- The ordered sequence of forward edges the builder inserts, one per
resolved import, iterating the parser-result entries in order. -/
def buildEdges (fileData : List FileRec) (mapping : List (String × String))
    (parserResults : List (String × ParseResult)) : List (String × String) :=
  parserResults.flatMap (fileEdges fileData mapping)

/-- `self.dependency_graph` after the build: fold the edge sequence into a
`defaultdict(set)` keyed by source. -/
def forwardGraph (edges : List (String × String)) : Graph :=
  edges.foldl (fun g e => addEdge g e.1 e.2) []

/-- `self.reverse_dependency_graph`: same edges keyed by target. -/
def reverseGraph (edges : List (String × String)) : Graph :=
  edges.foldl (fun g e => addEdge g e.2 e.1) []

/-! ## Key modules (`DependencyAnalyzer._identify_key_modules`, lines 182-222) -/

structure KeyModule where
  path : String
  dependents_count : Nat
  language : Option String := none
  description : Option String := none
deriving DecidableEq

/-- Description lookup of lines 204-210: prefer the 'module_docstring' key
when present (its value may be Python None), else the summary file name
formatted as "A ... file" (None prints as "None"). -/
def descriptionFor (parserResults : List (String × ParseResult)) (module : String) :
    Option String :=
  match (parserResults.find? (fun p => p.1 = module)).map (fun p => p.2) with
  | none => none
  | some pr =>
    match pr.module_docstring with
    | some d => d
    | none =>
      match pr.summary with
      | some s =>
        some ("A " ++ (match s.file_name with | some n => n | none => "None") ++ " file")
      | none => none

/-- The key-module record built for one reverse-graph entry. -/
def mkKeyModule (fileData : List FileRec) (parserResults : List (String × ParseResult))
    (entry : String × List String) : KeyModule :=
  { path := entry.1
    dependents_count := entry.2.length
    language := (fileData.find? (fun f => f.path = entry.1)).bind (fun f => f.language)
    description := descriptionFor parserResults entry.1 }

/-- Insert into a list sorted by `dependents_count` descending, after all
entries with a count ≥ the new one (this is the stable position Python's
`list.sort(key=..., reverse=True)` keeps for equal keys). -/
def insertDesc (x : KeyModule) : List KeyModule → List KeyModule
  | [] => [x]
  | y :: ys => if y.dependents_count < x.dependents_count then x :: y :: ys
               else y :: insertDesc x ys

/-- Stable descending sort by `dependents_count`, modelling the stable
`key_modules.sort(key=lambda x: x['dependents_count'], reverse=True)`. -/
def sortByCountDesc (l : List KeyModule) : List KeyModule :=
  l.foldl (fun acc x => insertDesc x acc) []

/-- `_identify_key_modules`: keep reverse-graph entries with at least
`threshold` dependents (in reverse-map insertion order), then sort stably
by dependent count descending.  `analyze` calls this with the default
threshold 5. -/
def identifyKeyModules (fileData : List FileRec) (parserResults : List (String × ParseResult))
    (revGraph : Graph) (threshold : Nat) : List KeyModule :=
  sortByCountDesc
    (revGraph.foldl
      (fun acc entry =>
        if entry.2.length ≥ threshold then
          acc ++ [mkKeyModule fileData parserResults entry]
        else acc)
      [])

/-! ## Cycle detection (`DependencyAnalyzer._find_circular_dependencies`,
lines 224-258): single-pass DFS with a global `visited` set and a shared
`path` stack; the driving loop runs DFS from each forward-graph key not yet
visited. -/

structure DfsState where
  visited : List String
  path : List String
  cycles : List (List String)
deriving DecidableEq

/-- One `dfs(node)` call.  The fuel argument only bounds the recursion
depth; `dfsFuel` below always exceeds the deepest possible path, so the
fuel never runs out on the graph it is computed from. -/
def dfsVisit (g : Graph) : Nat → String → DfsState → DfsState
  | 0, _, s => s
  | fuel + 1, node, s =>
    if node ∈ s.path then
      { s with cycles := s.cycles ++ [s.path.drop (s.path.findIdx (fun x => x = node)) ++ [node]] }
    else if node ∈ s.visited then s
    else
      let s1 : DfsState :=
        { s with visited := s.visited ++ [node], path := s.path ++ [node] }
      let s2 := (graphGetD g node).foldl (fun st nb => dfsVisit g fuel nb st) s1
      { s2 with path := s2.path.dropLast }

/-- A recursion-depth bound: more than the number of node occurrences in the
graph, hence more than the length of any duplicate-free DFS path. -/
def dfsFuel (g : Graph) : Nat :=
  (graphKeys g ++ g.flatMap (fun p => p.2)).length + 2

/-- `_find_circular_dependencies`, driven from each key of the forward
graph in insertion order. -/
def findCircularDependencies (g : Graph) : List (List String) :=
  (g.foldl
    (fun st p => if p.1 ∈ st.visited then st else dfsVisit g (dfsFuel g) p.1 st)
    ⟨[], [], []⟩).cycles

/-! ## Metrics (`DependencyAnalyzer._calculate_dependency_metrics`,
lines 260-334).  The float-valued 'average_dependencies' field and the
max-degree sub-dicts are not modelled; no claim mentions them. -/

/-- The flood fill of lines 296-312: pop a work-list entry, skip members
already in the component, otherwise add and push its forward and reverse
neighbours that are not yet in the component.  Python pops from the end of
`to_visit`; the embedding pops from the head, which changes only the
traversal order, not the resulting membership.  The fuel argument bounds
the number of pops; `floodFuel` always suffices because every push is one
element of some adjacency list consulted at most once. -/
def flood (fwd rev : Graph) : Nat → List String → List String → List String
  | 0, _, comp => comp
  | _ + 1, [], comp => comp
  | fuel + 1, cur :: rest, comp =>
    if cur ∈ comp then flood fwd rev fuel rest comp
    else
      let comp' := comp ++ [cur]
      let pushF := (graphGetD fwd cur).filter (fun d => d ∉ comp')
      let pushR := (graphGetD rev cur).filter (fun d => d ∉ comp')
      flood fwd rev fuel (pushF ++ pushR ++ rest) comp'

/-- Pop-count bound for `flood`: the seed plus the total size of all
adjacency lists. -/
def floodFuel (fwd rev : Graph) : Nat :=
  (fwd.flatMap (fun p => p.2)).length + (rev.flatMap (fun p => p.2)).length + 2

/-- The component loop of lines 284-315: seed a flood fill from every file
not yet visited, record components with more than one member. -/
def componentsAux (fwd rev : Graph) :
    List FileRec → List String → List (List String) → List (List String)
  | [], _, acc => acc
  | f :: rest, visited, acc =>
    if f.path ∈ visited then componentsAux fwd rev rest visited acc
    else
      let comp := flood fwd rev (floodFuel fwd rev) [f.path] []
      componentsAux fwd rev rest (visited ++ comp)
        (if comp.length > 1 then acc ++ [comp] else acc)

/-- The recorded multi-member components, in file order. -/
def dependencyComponents (fileData : List FileRec) (fwd rev : Graph) : List (List String) :=
  componentsAux fwd rev fileData [] []

structure DepMetrics where
  total_files : Nat
  files_with_dependencies : Nat
  files_with_dependents : Nat
  isolated_files : Nat
  leaf_files : Nat
  connected_components : Nat
  largest_component_size : Nat
deriving DecidableEq

/-- `_calculate_dependency_metrics` on the built adjacency maps. -/
def calcMetrics (fileData : List FileRec) (fwd rev : Graph) : DepMetrics :=
  let comps := dependencyComponents fileData fwd rev
  { total_files := fileData.length
    files_with_dependencies := fwd.length
    files_with_dependents := rev.length
    isolated_files := (fileData.filter (fun f => ¬ (graphKeys fwd).contains f.path)).length
    leaf_files := (fileData.filter (fun f => ¬ (graphKeys rev).contains f.path)).length
    connected_components := comps.length
    largest_component_size :=
      match comps with
      | [] => 0
      | _ => (comps.map List.length).foldl max 0 }

/-! ## Visualization graph (`DependencyAnalyzer._create_simplified_graph` and
`_create_directory_level_graph`, lines 336-448) -/

structure FileNode where
  id : String
  label : String
  language : Option String := none
  dependencies : Nat
  dependents : Nat
deriving DecidableEq

structure DirNode where
  id : String
  label : String
  file_count : Nat
  main_language : Option String := none
  dependencies : Nat
  dependents : Nat
deriving DecidableEq

/-- The graph dict handed to the report: per-file nodes or, when collapsed,
per-directory nodes. -/
inductive VizGraph where
  | fileLevel (nodes : List FileNode) (edges : List (String × String))
  | dirLevel (nodes : List DirNode) (edges : List (String × String))
deriving DecidableEq

def vizIsDirLevel : VizGraph → Bool
  | .fileLevel _ _ => false
  | .dirLevel _ _ => true

def vizNodeCount : VizGraph → Nat
  | .fileLevel ns _ => ns.length
  | .dirLevel ns _ => ns.length

/-- First-occurrence deduplication, modelling the cardinality of
`set(list(fwd.keys()) + list(rev.keys()))` (Python set iteration order is
unspecified; only the member set matters downstream). -/
def dedupAux : List String → List String → List String
  | [], _ => []
  | x :: xs, seen => if x ∈ seen then dedupAux xs seen else x :: dedupAux xs (x :: seen)

def dedupKeys (l : List String) : List String := dedupAux l []

/-- Node set of the full per-file graph (line 355). -/
def fullGraphNodes (fwd rev : Graph) : List String :=
  dedupKeys (graphKeys fwd ++ graphKeys rev)

/-- The per-file branch of `_create_simplified_graph` (lines 350-382). -/
def createFileLevelGraph (fileData : List FileRec) (fwd rev : Graph) : VizGraph :=
  .fileLevel
    ((fullGraphNodes fwd rev).map
      (fun p =>
        { id := p
          label := basename p
          language := (fileData.find? (fun f => f.path = p)).bind (fun f => f.language)
          dependencies := (graphGetD fwd p).length
          dependents := (graphGetD rev p).length }))
    (graphPairs fwd)

/-- `os.path.dirname(p) or 'root'` (lines 396-398, 405, 408). -/
def dirOf (p : String) : String :=
  let d := dirname p
  if d = "" then "root" else d

/-- Grouping of lines 392-399: files by directory, a `defaultdict(list)`. -/
def dirToFiles (fileData : List FileRec) : Graph :=
  fileData.foldl (fun acc fi => listAppendEntry acc (dirOf fi.path) fi.path) []

/-- Directory-level adjacency of lines 402-412: for every forward edge with
distinct source and target directories, add a directory edge. -/
def dirDependencies (fwd : Graph) : Graph :=
  fwd.foldl
    (fun acc e =>
      e.2.foldl
        (fun acc2 t =>
          if dirOf e.1 ≠ dirOf t then addEdge acc2 (dirOf e.1) (dirOf t) else acc2)
        acc)
    []

/-- Count per language over one directory's files (lines 421-426); the
inner rescan of `file_data` counts one per matching record. -/
def dirLanguages (fileData : List FileRec) (files : List String) : List (String × Nat) :=
  files.foldl
    (fun langs f =>
      fileData.foldl
        (fun ls fi =>
          if fi.path = f then
            match fi.language with
            | some l =>
              if ls.any (fun p => p.1 = l) then
                ls.map (fun p => if p.1 = l then (p.1, p.2 + 1) else p)
              else ls ++ [(l, 1)]
            | none => ls
          else ls)
        langs)
    []

/-- Python `max(items, key=...)`: the first entry with maximal count. -/
def maxByCount (l : List (String × Nat)) : Option String :=
  match l with
  | [] => none
  | x :: xs => some ((xs.foldl (fun best p => if p.2 > best.2 then p else best) x).1)

/-- Nodes of the directory-level graph (lines 419-435). -/
def dirLevelNodes (fileData : List FileRec) (fwd : Graph) : List DirNode :=
  (dirToFiles fileData).map
    (fun entry =>
      { id := entry.1
        label := if basename entry.1 = "" then "root" else basename entry.1
        file_count := entry.2.length
        main_language := maxByCount (dirLanguages fileData entry.2)
        dependencies := (graphGetD (dirDependencies fwd) entry.1).length
        dependents := (dirDependencies fwd).countP (fun q => entry.1 ∈ q.2) })

/-- Edges of the directory-level graph (lines 438-443). -/
def dirLevelEdges (fwd : Graph) : List (String × String) :=
  graphPairs (dirDependencies fwd)

/-- Node identities of the directory-level graph. -/
def dirNodeIds (fileData : List FileRec) (fwd : Graph) : List String :=
  (dirLevelNodes fileData fwd).map DirNode.id

/-- `_create_directory_level_graph`. -/
def createDirectoryLevelGraph (fileData : List FileRec) (fwd : Graph) : VizGraph :=
  .dirLevel (dirLevelNodes fileData fwd) (dirLevelEdges fwd)

/-- `_create_simplified_graph(max_nodes=50)`: collapse to directory level
when the forward adjacency has more than `maxNodes` keys (line 347 tests
`len(self.dependency_graph)`). -/
def createSimplifiedGraph (fileData : List FileRec) (fwd rev : Graph) (maxNodes : Nat) :
    VizGraph :=
  if fwd.length > maxNodes then createDirectoryLevelGraph fileData fwd
  else createFileLevelGraph fileData fwd rev

/-! ## JSDoc association (`JavaScriptParser._extract_jsdoc_comment`,
lines 59-105).

The method scans upward from the line above the declaration for a stripped
line ending in `*/` (first loop, lines 81-86) with no bound other than the
top of the file, then keeps collecting stripped lines upward until one
starts with `/**` (second loop, lines 93-103); the collected block is
cleaned with `re.sub(r'/\*\*|\*/|^\s*\*', '', comment, flags=re.MULTILINE)`
and stripped.  Since every collected line is already stripped, the
MULTILINE substitution acts per line; `cleanLineChars` applies the three
alternatives in the pattern's order. -/

/-- Does the stripped line at index `i` end with the close marker? -/
def checkEnd (ls : List String) (i : Nat) : Bool :=
  strEndsWith (strTrim (ls.getD i "")) "*/"

/-- Does the stripped line at index `i` start with the open marker? -/
def checkStart (ls : List String) (i : Nat) : Bool :=
  strStartsWith (strTrim (ls.getD i "")) "/**"

/-- First loop: walk indices downward from `i` to 0, returning the first
index whose stripped line ends with `*/`. -/
def scanForEnd (ls : List String) : Nat → Option Nat
  | 0 => if checkEnd ls 0 then some 0 else none
  | i + 1 => if checkEnd ls (i + 1) then some (i + 1) else scanForEnd ls i

/-- Second loop: collect stripped lines downward from `i`, succeeding at the
first line that starts with `/**`. -/
def scanForStart (ls : List String) : Nat → List String → Option (List String)
  | 0, acc =>
    let line := strTrim (ls.getD 0 "")
    if strStartsWith line "/**" then some (line :: acc) else none
  | i + 1, acc =>
    let line := strTrim (ls.getD (i + 1) "")
    if strStartsWith line "/**" then some (line :: acc)
    else scanForStart ls i (line :: acc)

/-- Marker removal inside a line: drop every `/**` and `*/` occurrence,
`/**` tried first at each position as in the regex alternation. -/
def stripJsdocBody : List Char → List Char
  | '/' :: '*' :: '*' :: rest => stripJsdocBody rest
  | '*' :: '/' :: rest => stripJsdocBody rest
  | c :: rest => c :: stripJsdocBody rest
  | [] => []

/-- Marker removal for one (already stripped) line: additionally drop a
single leading `*` (the `^\s*\*` alternative; the lines carry no leading
whitespace). -/
def cleanLineChars : List Char → List Char
  | '/' :: '*' :: '*' :: rest => stripJsdocBody rest
  | '*' :: '/' :: rest => stripJsdocBody rest
  | '*' :: rest => stripJsdocBody rest
  | cs => stripJsdocBody cs

/-- Join the collected block, remove comment markers, strip. -/
def cleanJsdoc (ls : List String) : String :=
  strTrim (unlines (ls.map (fun l => ⟨cleanLineChars l.data⟩)))

/-- `_extract_jsdoc_comment` over the split lines.  `lineNumber` is the
1-indexed declaration line; the scan starts at `lineNumber - 2`
(0-indexed line above the declaration), so declarations on line 1 and
blocks whose `*/` sits on the very first line yield `None` exactly as the
Python loops do. -/
def extractJsdocLines (ls : List String) (lineNumber : Nat) : Option String :=
  if lineNumber = 0 ∨ ls.length < lineNumber then none
  else if lineNumber < 2 then none
  else
    match scanForEnd ls (lineNumber - 2) with
    | none => none
    | some 0 => none
    | some (e + 1) =>
      (scanForStart ls e [strTrim (ls.getD (e + 1) "")]).map cleanJsdoc

/-- `_extract_jsdoc_comment` on raw content (`if not self.content` guard,
then `content.splitlines()`).  `extract_functions` (line 230) stores this
value as the `jsdoc` field of every matched function. -/
def extractJsdoc (content : String) (lineNumber : Nat) : Option String :=
  if content = "" then none
  else extractJsdocLines (strSplitLines content) lineNumber

/-! ## Python adapter (`PythonParser`, lines 14-27 and 168-203) and the
per-file loop of `RepositoryAnalyzer._parse_files` (main.py lines 108-132).

`ast.parse` is the CPython parser; it is modelled as an arbitrary function
returning `Except PyExn PyAst`.  `PyExn` distinguishes the exception
classes the adapter's behaviour depends on: `__init__` (lines 24-27)
catches only `SyntaxError`, so any other exception — for instance the
`ValueError` that `ast.parse` raises on source text containing a null
byte — propagates uncaught to the caller; and `parse()` runs
`extract_api_endpoints`, whose Django branch evaluates
`elt.args[1].value.id` (line 353) and therefore raises `AttributeError`
whenever the view argument's `.value` is not a plain name.  The statement
and expression shapes carried by `PyAst` are the ones the embedded
extractors read; statements appear in `ast.walk` order. -/

inductive PyExn where
  | syntaxError (msg : String)
  | valueError (msg : String)
  | attributeError (msg : String)

/-- AST expressions read by the extractors (`ast.Name`, `ast.Attribute`,
`ast.Str`, `ast.Call`, `ast.List`; every other node class is `other`). -/
inductive PyExpr where
  | name (id : String)
  | attribute (value : PyExpr) (attr : String)
  | strLit (s : String)
  | call (func : PyExpr) (args : List PyExpr) (keywords : List (Option String × PyExpr))
  | listExpr (elts : List PyExpr)
  | other

inductive PyStmt where
  | importStmt (names : List (String × Option String)) (line : Nat)
  | importFrom (module : Option String) (names : List (String × Option String)) (line : Nat)
  | exprStr (s : String)
  | functionDef (name : String) (decorators : List PyExpr) (line : Nat)
  | assign (targets : List PyExpr) (value : PyExpr) (line : Nat)
  | other

/-- A parsed module; `body` lists the statements in `ast.walk` order. -/
structure PyAst where
  body : List PyStmt

/-- `PythonParser.__init__` (lines 21-27): parse when content was readable;
the `except SyntaxError` handler turns exactly a syntax error into
`ast_tree = None`, while every other exception class propagates uncaught
out of the constructor. -/
def pythonParserInit (astParse : String → Except PyExn PyAst)
    (content : Option String) : Except PyExn (Option PyAst) :=
  match content with
  | none => .ok none
  | some c =>
    match astParse c with
    | .ok t => .ok (some t)
    | .error (.syntaxError _) => .ok none
    | .error e => .error e

/-- `PythonParser.extract_imports` (lines 205-237). -/
def pyExtractImports (t : PyAst) : List ImportInfo :=
  t.body.flatMap
    (fun st =>
      match st with
      | .importStmt names line =>
        names.map (fun nm => { type := "import", name := some nm.1, alias' := nm.2,
                               line_number := line })
      | .importFrom mod names line =>
        names.map (fun nm => { type := "from_import", module := some (mod.getD ""),
                               name := some nm.1, alias' := nm.2, line_number := line })
      | _ => [])

/-- `PythonParser._get_docstring` on a statement list: the docstring is the
leading string-expression statement, stripped. -/
def pyGetDocstring (body : List PyStmt) : Option String :=
  match body.head? with
  | some (.exprStr s) => some (strTrim s)
  | _ => none

/-- Python attribute access `.id` on an expression node: it succeeds only
on `ast.Name`; every other node class lacks the attribute and raises
`AttributeError` (this is the access `elt.args[1].value.id` performs at
python_parser.py line 353). -/
def pyExprId : PyExpr → Except PyExn String
  | .name i => .ok i
  | .attribute _ _ => .error (.attributeError "'Attribute' object has no attribute 'id'")
  | .strLit _ => .error (.attributeError "'Str' object has no attribute 'id'")
  | .call _ _ _ => .error (.attributeError "'Call' object has no attribute 'id'")
  | .listExpr _ => .error (.attributeError "'List' object has no attribute 'id'")
  | .other => .error (.attributeError "object has no attribute 'id'")

/-- Endpoints contributed by one decorator of one function — the Flask and
FastAPI branches of `extract_api_endpoints` (lines 289-331).  Every
attribute access in these branches is isinstance-guarded, so they cannot
raise; an empty route string is falsy and skipped (`if route:`). -/
def pyDecoratorEndpoint (fnName : String) (line : Nat) (dec : PyExpr) : List PyEndpoint :=
  match dec with
  | .call (.attribute _ attr) args keywords =>
    if attr = "route" ∧ args.isEmpty = false then
      match args.headD .other with
      | .strLit route =>
        if route = "" then []
        else
          let methods := keywords.foldl
            (fun acc kw =>
              if kw.1 = some "methods" then
                match kw.2 with
                | .listExpr elts =>
                  acc ++ elts.filterMap
                    (fun e => match e with | .strLit s => some s | _ => none)
                | _ => acc
              else acc)
            []
          [{ type := "flask", route := route,
             methods := some (if methods.isEmpty then ["GET"] else methods),
             function := some fnName, line_number := line }]
      | _ => []
    else if (attr = "get" ∨ attr = "post" ∨ attr = "put" ∨ attr = "delete" ∨ attr = "patch"
        ∨ attr = "options") ∧ args.isEmpty = false then
      match args.headD .other with
      | .strLit route =>
        if route = "" then []
        else [{ type := "fastapi", route := route, methods := some [strUpper attr],
                function := some fnName, line_number := line }]
      | _ => []
    else []
  | _ => []

/-- The view string for the second argument of one Django `path(...)` or
`url(...)` call (lines 348-353): a plain name yields its id; an attribute
node evaluates `value.id` — raising AttributeError when `.value` is not a
name — and yields `value.id + "." + attr`; any other node leaves the view
absent. -/
def pyDjangoView : PyExpr → Except PyExn (Option String)
  | .name i => .ok (some i)
  | .attribute v a =>
    match pyExprId v with
    | .ok vid => .ok (some (vid ++ "." ++ a))
    | .error e => .error e
  | _ => .ok none

/-- Endpoints contributed by one element of a `urlpatterns` list
(lines 341-361).  The view expression is evaluated before the
`if route and view` truthiness test, so its AttributeError escapes even
when the route is missing; empty strings are falsy and skipped. -/
def pyDjangoElt (line : Nat) : PyExpr → Except PyExn (List PyEndpoint)
  | .call (.name fid) args _ =>
    if (fid = "path" ∨ fid = "url") ∧ args.length ≥ 2 then
      let route := match args.headD .other with | .strLit s => some s | _ => none
      match pyDjangoView (args.getD 1 .other) with
      | .error e => .error e
      | .ok view =>
        match route, view with
        | some r, some v =>
          if r = "" ∨ v = "" then .ok []
          else .ok [{ type := "django", route := r, view := some v, line_number := line }]
        | _, _ => .ok []
    else .ok []
  | _ => .ok []

/-- `PythonParser.extract_api_endpoints` (lines 276-363) over the carried
statement shapes: the decorator branches never raise; the Django branch
runs only when some import's module string mentions django, and
propagates the AttributeError of the view access. -/
def pyExtractApiEndpoints (t : PyAst) : Except PyExn (List PyEndpoint) :=
  let flask := t.body.flatMap
    (fun st =>
      match st with
      | .functionDef name decorators line => decorators.flatMap (pyDecoratorEndpoint name line)
      | _ => [])
  if (pyExtractImports t).any (fun imp => strContains (imp.module.getD "") "django") then
    match t.body.foldlM
        (fun acc st =>
          match st with
          | .assign targets value line =>
            if targets.any
                (fun tg => match tg with | .name i => i = "urlpatterns" | _ => false) then
              match value with
              | .listExpr elts =>
                elts.foldlM
                  (fun acc2 e =>
                    match pyDjangoElt line e with
                    | .ok r => Except.ok (acc2 ++ r)
                    | .error err => Except.error err)
                  acc
              | _ => Except.ok acc
            else Except.ok acc
          | _ => Except.ok acc)
        [] with
    | .ok django => .ok (flask ++ django)
    | .error e => .error e
  else .ok flask

/-- `PythonParser.parse` (lines 168-203): an error dict when there is no
AST, otherwise the fact record.  (The `if not self.ast_tree` test is the
None test: a parsed `ast.Module` object is always truthy.)  The call to
`extract_api_endpoints` runs unguarded inside `parse`, so its exception
propagates out of `parse` itself.  Function and class extraction populate
further keys no analyzed code reads and cannot raise on the carried
shapes; they are not modelled. -/
def pythonParserParse (filePath : String) (astTree : Option PyAst) :
    Except PyExn ParseResult :=
  match astTree with
  | none => .ok { error := some "Could not parse file" }
  | some t =>
    match pyExtractApiEndpoints t with
    | .error e => .error e
    | .ok endpoints =>
      .ok { error := none
            summary := some { file_path := filePath, file_name := some (basename filePath),
                              directory := dirname filePath }
            imports := some (pyExtractImports t)
            module_docstring := some (pyGetDocstring t.body)
            api_endpoints := some endpoints }

/-- The full adapter invocation `PythonParser(abs_path).parse()` exactly as
the pipeline performs it: an exception raised by either the constructor or
`parse` propagates to the caller. -/
def pythonParserRun (astParse : String → Except PyExn PyAst) (filePath : String)
    (content : Option String) : Except PyExn ParseResult :=
  match pythonParserInit astParse content with
  | .error e => .error e
  | .ok t => pythonParserParse filePath t

/-- The loop body of `_parse_files`: each file's parser invocation is run
under `try/except` (main.py lines 117-130); a raised error is logged and
skipped, a returned dict is stored under the file path.  `run` models the
language-dispatched `Parser(abs_path).parse()` call. -/
def parseFiles (run : String → Except PyExn ParseResult) (files : List String) :
    List (String × ParseResult) :=
  files.foldl
    (fun acc fp =>
      match run fp with
      | .ok r => acc ++ [(fp, r)]
      | .error _ => acc)
    []

/-! ## Spec-side reference definitions -/

/-- Modelled from the spec (§8, claim C4): the isolated-file count the claim
asserts — files of the FileRecord list that appear neither as a key of the
forward adjacency map nor as a key of the reverse adjacency map. -/
def specIsolatedCount (fileData : List FileRec) (fwd rev : Graph) : Nat :=
  (fileData.filter (fun f => f.path ∉ graphKeys fwd ∧ f.path ∉ graphKeys rev)).length

/-! ## Concrete fixtures for counterexamples and witnesses -/

/-- A parse-result dict whose 'imports' list contains one plain `import m`
entry per listed token. -/
def importsRec (ms : List String) : ParseResult :=
  { imports := some (ms.map (fun m => { type := "import", name := some m })) }

/-- C1: four files; a imports b and d, b imports c, c imports a, d imports
c — two elementary 3-cycles (a,b,c) and (a,d,c) sharing the edge c→a. -/
def c1Files : List FileRec :=
  [⟨"a.py", some "python"⟩, ⟨"b.py", some "python"⟩,
   ⟨"c.py", some "python"⟩, ⟨"d.py", some "python"⟩]

/-- C1: parser results enumerated with a.py first. -/
def c1Recs1 : List (String × ParseResult) :=
  [("a.py", importsRec ["b", "d"]), ("b.py", importsRec ["c"]),
   ("c.py", importsRec ["a"]), ("d.py", importsRec ["c"])]

/-- C1: the same fact records enumerated with c.py first. -/
def c1Recs2 : List (String × ParseResult) :=
  [("c.py", importsRec ["a"]), ("a.py", importsRec ["b", "d"]),
   ("b.py", importsRec ["c"]), ("d.py", importsRec ["c"])]

def c1Fwd1 : Graph :=
  forwardGraph (buildEdges c1Files (buildModuleMapping c1Files) c1Recs1)

def c1Fwd2 : Graph :=
  forwardGraph (buildEdges c1Files (buildModuleMapping c1Files) c1Recs2)

/-- C2 witness: two fact records. -/
def c2RecA : String × ParseResult := ("a.py", importsRec ["b"])

def c2RecB : String × ParseResult := ("b.py", importsRec ["a"])

def c2Files : List FileRec := [⟨"a.py", some "python"⟩, ⟨"b.py", some "python"⟩]

/-- C3: targets x.py, y.py, z.py plus twelve importing files; the five
importers of y come first in the parser-result enumeration, so y.py enters
the reverse adjacency before x.py although "x.py" precedes "y.py"
lexically. -/
def c3Files : List FileRec :=
  [⟨"x.py", some "python"⟩, ⟨"y.py", some "python"⟩, ⟨"z.py", some "python"⟩] ++
    (List.range 5).map (fun i => ⟨"c" ++ toString i ++ ".py", some "python"⟩) ++
    (List.range 5).map (fun i => ⟨"d" ++ toString i ++ ".py", some "python"⟩) ++
    (List.range 2).map (fun i => ⟨"e" ++ toString i ++ ".py", some "python"⟩)

def c3Recs : List (String × ParseResult) :=
  (List.range 5).map (fun i => ("c" ++ toString i ++ ".py", importsRec ["y"])) ++
    (List.range 5).map (fun i => ("d" ++ toString i ++ ".py", importsRec ["x"])) ++
    (List.range 2).map (fun i => ("e" ++ toString i ++ ".py", importsRec ["z"]))

def c3Rev : Graph :=
  reverseGraph (buildEdges c3Files (buildModuleMapping c3Files) c3Recs)

/-- C4: a.py imports b.py; b.py has no forward edges but one dependent. -/
def c4Files : List FileRec := [⟨"a.py", some "python"⟩, ⟨"b.py", some "python"⟩]

def c4Recs : List (String × ParseResult) := [("a.py", importsRec ["b"])]

def c4Edges : List (String × String) :=
  buildEdges c4Files (buildModuleMapping c4Files) c4Recs

/-- C5: a JSDoc block, then a blank line, then the declaration (line 5). -/
def c5SeparatedContent : String := "/**\n * doc\n */\n\nfunction foo()"

/-- C6: an `ast.parse` stand-in raising the ValueError CPython raises on
source text containing a null byte — not a SyntaxError, so the
`except SyntaxError` handler of `__init__` does not catch it. -/
def c6NullByteParse : String → Except PyExn PyAst :=
  fun _ => .error (.valueError "source code string cannot contain null bytes")

/-- C6: an `ast.parse` stand-in raising SyntaxError, the one exception
class `__init__` does catch. -/
def c6SyntaxErrParse : String → Except PyExn PyAst :=
  fun _ => .error (.syntaxError "invalid syntax")

/-- C6: the AST of a valid Django urls module — `from django.urls` bringing
in `path`, followed by `urlpatterns = [path('r/', views.detail.page)]` —
whose view argument is a nested attribute, the shape line 353 mishandles. -/
def c6DjangoAst : PyAst :=
  { body :=
      [.importFrom (some "django.urls") [("path", none)] 1,
       .assign [.name "urlpatterns"]
         (.listExpr
           [.call (.name "path")
             [.strLit "r/", .attribute (.attribute (.name "views") "detail") "page"] []])
         2] }

/-- C6: a parser invocation that raises on a.py and returns an empty dict
for every other file. -/
def c6Run : String → Except PyExn ParseResult :=
  fun fp => if fp = "a.py" then .error (.valueError "raised") else .ok {}

/-- C7: 52 files in three directories; only the two files in s/ have
outgoing edges (25 each), so the forward adjacency has 2 keys while the
full per-file graph has 52 nodes. -/
def c7Files : List FileRec :=
  [⟨"s/a.py", some "python"⟩, ⟨"s/b.py", some "python"⟩] ++
    (List.range 25).map (fun i => ⟨"t/m" ++ toString i ++ ".py", some "python"⟩) ++
    (List.range 25).map (fun i => ⟨"u/n" ++ toString i ++ ".py", some "python"⟩)

def c7Recs : List (String × ParseResult) :=
  [("s/a.py", importsRec ((List.range 25).map (fun i => "m" ++ toString i))),
   ("s/b.py", importsRec ((List.range 25).map (fun i => "n" ++ toString i)))]

def c7Edges : List (String × String) :=
  buildEdges c7Files (buildModuleMapping c7Files) c7Recs

/-- C7 amended witness: a forward adjacency with 51 keys, every source in
its own directory d0..d50, all importing z/g.py. -/
def c7wFwd : Graph :=
  (List.range 51).map (fun i => ("d" ++ toString i ++ "/f.py", ["z/g.py"]))

def c7wFiles : List FileRec :=
  ⟨"z/g.py", some "python"⟩ ::
    (List.range 51).map (fun i => ⟨"d" ++ toString i ++ "/f.py", some "python"⟩)

/-- C8: a single file pkg/mod.py whose source contains `import mod` — a
plain absolute import of a top-level module named mod, which in Python
refers to an external module, not to pkg/mod.py itself; the short-name
lookup nevertheless maps the token back to the importing file. -/
def c8Files : List FileRec := [⟨"pkg/mod.py", some "python"⟩]

def c8Recs : List (String × ParseResult) := [("pkg/mod.py", importsRec ["mod"])]

/-- C9 witness: a repository-internal file whose short name starts with
'http' and a file importing exactly that token. -/
def c9Files : List FileRec := [⟨"http_utils.py", some "python"⟩, ⟨"main.py", some "python"⟩]

def c9Import : ImportInfo := { type := "import", name := some "http_utils" }

/-- C10: a package marker file and x.py importing the directory name 'a',
which resolves to the directory path "a" — a graph node that is not a file
of the FileRecord list. -/
def c10Files : List FileRec := [⟨"a/__init__.py", some "python"⟩, ⟨"x.py", some "python"⟩]

def c10Recs : List (String × ParseResult) := [("x.py", importsRec ["a"])]

def c10Edges : List (String × String) :=
  buildEdges c10Files (buildModuleMapping c10Files) c10Recs

/-! ## Claim theorems: concrete evaluations -/

set_option maxRecDepth 200000

/-- C1: the claim says cycle detection reports every elementary cycle
regardless of the enumeration order driving the DFS.  Evaluating
`_find_circular_dependencies` on the failing input — the graph with edges
a→b, a→d, b→c, c→a, d→c, holding the elementary cycles (a,b,c,a) and
(a,d,c,a) — shows the single-pass DFS with its global visited set reports
only one of the two cycles when the enumeration starts at a.py, while the
same fact records enumerated with c.py first yield both; so the report
both depends on the start order and misses a reachable elementary cycle. -/
theorem c1_cycle_report_depends_on_enumeration :
    c1Recs1.Perm c1Recs2
    ∧ findCircularDependencies c1Fwd1 = [["a.py", "b.py", "c.py", "a.py"]]
    ∧ findCircularDependencies c1Fwd2 =
        [["c.py", "a.py", "b.py", "c.py"], ["c.py", "a.py", "d.py", "c.py"]] := by
  refine ⟨by decide, by decide, by decide⟩

/-- C3 counterexample: with reverse-adjacency insertion order y.py before
x.py (both with 5 dependents, z.py with 2) and threshold 3, the ranking
returns the paths in insertion order [y.py, x.py], not in the path lexical
order [x.py, y.py] the claim requires for ties. -/
theorem c3_counterexample :
    (identifyKeyModules c3Files c3Recs c3Rev 3).map KeyModule.path = ["y.py", "x.py"]
    ∧ (identifyKeyModules c3Files c3Recs c3Rev 3).map KeyModule.path ≠ ["x.py", "y.py"] := by
  refine ⟨by decide, by decide⟩

/-- C4 counterexample: with a.py importing b.py, the code counts b.py as
isolated (it is absent from the forward adjacency keys) although b.py is a
key of the reverse adjacency, so the reported count 1 differs from the 0
the claim's both-maps condition yields. -/
theorem c4_counterexample :
    (calcMetrics c4Files (forwardGraph c4Edges) (reverseGraph c4Edges)).isolated_files = 1
    ∧ specIsolatedCount c4Files (forwardGraph c4Edges) (reverseGraph c4Edges) = 0 := by
  refine ⟨by decide, by decide⟩

/-- C5 counterexample: a documentation block separated from the
declaration line (line 5) by a blank line is still attached — the upward
scan for the closing marker is unbounded — although the claim says the doc
field is absent in that case. -/
theorem c5_counterexample : extractJsdoc c5SeparatedContent 5 = some "doc" := by
  decide

/-- C7 counterexample: a repository whose full per-file graph has 52 nodes
(above the 50-node budget) but only 2 forward-adjacency keys is NOT
collapsed to directory level, because line 347 tests
`len(self.dependency_graph)` — the number of files with outgoing edges —
rather than the full node count the claim quantifies over. -/
theorem c7_counterexample :
    50 < (fullGraphNodes (forwardGraph c7Edges) (reverseGraph c7Edges)).length
    ∧ vizIsDirLevel
        (createSimplifiedGraph c7Files (forwardGraph c7Edges) (reverseGraph c7Edges) 50)
      = false := by
  refine ⟨by decide, by decide⟩

/-- C8 counterexample: pkg/mod.py contains the plain absolute import
`import mod`; the Module Index maps the short name mod back to
pkg/mod.py, so the builder inserts the self-loop (pkg/mod.py, pkg/mod.py)
even though the import token refers to a top-level module, not to the file
itself — a resolution artifact the claim says never occurs. -/
theorem c8_counterexample :
    buildEdges c8Files (buildModuleMapping c8Files) c8Recs
      = [("pkg/mod.py", "pkg/mod.py")] := by
  decide

/-- C10 counterexample: x.py imports the directory a (registered in the
Module Index by a/__init__.py), producing the single edge (x.py, "a") whose
target is a directory, not a file.  Exactly one file of the FileRecord list
occurs in any edge, so no two files are weakly connected and the number of
multi-file weak components is 0 — yet the metric reports 1 component (of
size 2, counting the directory node). -/
theorem c10_counterexample :
    (calcMetrics c10Files (forwardGraph c10Edges) (reverseGraph c10Edges)).connected_components
        = 1
    ∧ (c10Files.filter
          (fun f => c10Edges.any (fun e => e.1 = f.path ∨ e.2 = f.path))).length = 1 := by
  refine ⟨by decide, by decide⟩

/-! ## Supporting lemmas -/

theorem graphKeys_addEdge (g : Graph) (k v : String) :
    graphKeys (addEdge g k v) = if g.any (fun p => p.1 = k) then graphKeys g
      else graphKeys g ++ [k] := by
  unfold addEdge graphKeys
  cases hA : g.any (fun p => p.1 = k) with
  | false => simp
  | true =>
    rw [if_pos rfl, List.map_map]
    apply List.map_congr_left
    intro p hp
    by_cases hpk : p.1 = k <;> simp [hpk]

theorem mem_graphKeys_addEdge (g : Graph) (k v s : String) :
    s ∈ graphKeys (addEdge g k v) ↔ s ∈ graphKeys g ∨ s = k := by
  rw [graphKeys_addEdge]
  cases hA : g.any (fun p => p.1 = k) with
  | false => simp
  | true =>
    obtain ⟨p0, hp0, hk⟩ := List.any_eq_true.mp hA
    simp only [decide_eq_true_eq] at hk
    rw [if_pos rfl]
    constructor
    · exact Or.inl
    · rintro (h | rfl)
      · exact h
      · exact List.mem_map.mpr ⟨p0, hp0, hk⟩

theorem mem_graphGetD_addEdge (g : Graph) (k v s t : String) :
    t ∈ graphGetD (addEdge g k v) s ↔ t ∈ graphGetD g s ∨ (s = k ∧ t = v) := by
  unfold addEdge graphGetD
  cases hA : g.any (fun p => p.1 = k) with
  | false =>
    have hnk : ∀ x ∈ g, ¬ x.1 = k := by
      intro x hx
      simpa using (List.any_eq_false.mp hA) x hx
    simp only [Bool.false_eq_true, if_false, List.find?_append]
    cases hF : g.find? (fun p => p.1 = s) with
    | some e =>
      have hes : e.1 = s := by simpa using List.find?_some hF
      have hek : ¬ e.1 = k := hnk e (List.mem_of_find?_eq_some hF)
      simp only [Option.or_some, Option.map_some, Option.getD_some]
      constructor
      · exact Or.inl
      · rintro (h | ⟨rfl, rfl⟩)
        · exact h
        · exact absurd hes hek
    | none =>
      by_cases hsk : s = k
      · subst hsk
        simp [List.find?_cons]
      · simp [List.find?_cons, Ne.symm hsk, hsk]
  | true =>
    have hpred : (fun p : String × List String =>
        decide ((if p.1 = k then (p.1, if v ∈ p.2 then p.2 else p.2 ++ [v]) else p).1 = s))
        = (fun p : String × List String => decide (p.1 = s)) := by
      funext p
      by_cases hpk : p.1 = k <;> simp [hpk]
    simp only [hA, if_true, List.find?_map, Function.comp_def, hpred]
    cases hF : g.find? (fun p => p.1 = s) with
    | none =>
      have hns : ∀ x ∈ g, ¬ x.1 = s := by
        intro x hx
        simpa using (List.find?_eq_none.mp hF) x hx
      obtain ⟨p0, hp0, hk0⟩ := List.any_eq_true.mp hA
      simp only [decide_eq_true_eq] at hk0
      have hsk : ¬ s = k := by
        intro h
        exact hns p0 hp0 (by rw [hk0, h])
      constructor
      · intro h
        exact absurd h (List.not_mem_nil t)
      · rintro (h | ⟨h1, _⟩)
        · exact absurd h (List.not_mem_nil t)
        · exact absurd h1 hsk
    | some e =>
      have hes : e.1 = s := by simpa using List.find?_some hF
      show t ∈ (if e.1 = k then (e.1, if v ∈ e.2 then e.2 else e.2 ++ [v]) else e).2
          ↔ t ∈ e.2 ∨ (s = k ∧ t = v)
      by_cases hek : e.1 = k
      · rw [if_pos hek]
        by_cases hv : v ∈ e.2
        · rw [if_pos hv]
          constructor
          · exact Or.inl
          · rintro (h | ⟨_, rfl⟩)
            · exact h
            · exact hv
        · rw [if_neg hv]
          simp only [List.mem_append, List.mem_singleton]
          constructor
          · rintro (h | rfl)
            · exact Or.inl h
            · exact Or.inr ⟨hes.symm.trans hek, rfl⟩
          · rintro (h | ⟨_, rfl⟩)
            · exact Or.inl h
            · exact Or.inr rfl
      · rw [if_neg hek]
        have hsk : ¬ s = k := fun h => hek (hes.trans h)
        simp [hsk]

theorem mem_graphGetD_forward_foldl (es : List (String × String)) (s t : String) :
    ∀ g0 : Graph, t ∈ graphGetD (es.foldl (fun g e => addEdge g e.1 e.2) g0) s
      ↔ t ∈ graphGetD g0 s ∨ (s, t) ∈ es := by
  induction es with
  | nil => intro g0; simp
  | cons e es ih =>
    intro g0
    rw [List.foldl_cons, ih, mem_graphGetD_addEdge]
    constructor
    · rintro ((h | ⟨rfl, rfl⟩) | h)
      · exact Or.inl h
      · exact Or.inr (by simp)
      · exact Or.inr (List.mem_cons_of_mem _ h)
    · rintro (h | h)
      · exact Or.inl (Or.inl h)
      · rcases List.mem_cons.mp h with h1 | h2
        · exact Or.inl (Or.inr ⟨congrArg Prod.fst h1, congrArg Prod.snd h1⟩)
        · exact Or.inr h2

theorem mem_graphGetD_forwardGraph (es : List (String × String)) (s t : String) :
    t ∈ graphGetD (forwardGraph es) s ↔ (s, t) ∈ es := by
  have := mem_graphGetD_forward_foldl es s t []
  simpa [forwardGraph, graphGetD] using this

theorem mem_graphGetD_reverse_foldl (es : List (String × String)) (s t : String) :
    ∀ g0 : Graph, t ∈ graphGetD (es.foldl (fun g e => addEdge g e.2 e.1) g0) s
      ↔ t ∈ graphGetD g0 s ∨ (t, s) ∈ es := by
  induction es with
  | nil => intro g0; simp
  | cons e es ih =>
    intro g0
    rw [List.foldl_cons, ih, mem_graphGetD_addEdge]
    constructor
    · rintro ((h | ⟨rfl, rfl⟩) | h)
      · exact Or.inl h
      · exact Or.inr (by simp)
      · exact Or.inr (List.mem_cons_of_mem _ h)
    · rintro (h | h)
      · exact Or.inl (Or.inl h)
      · rcases List.mem_cons.mp h with h1 | h2
        · exact Or.inl (Or.inr ⟨congrArg Prod.snd h1, congrArg Prod.fst h1⟩)
        · exact Or.inr h2

theorem mem_graphGetD_reverseGraph (es : List (String × String)) (s t : String) :
    t ∈ graphGetD (reverseGraph es) s ↔ (t, s) ∈ es := by
  have := mem_graphGetD_reverse_foldl es s t []
  simpa [reverseGraph, graphGetD] using this

theorem mem_graphKeys_forward_foldl (es : List (String × String)) (s : String) :
    ∀ g0 : Graph, s ∈ graphKeys (es.foldl (fun g e => addEdge g e.1 e.2) g0)
      ↔ s ∈ graphKeys g0 ∨ ∃ t, (s, t) ∈ es := by
  induction es with
  | nil => intro g0; simp
  | cons e es ih =>
    intro g0
    rw [List.foldl_cons, ih, mem_graphKeys_addEdge]
    constructor
    · rintro ((h | rfl) | ⟨t, ht⟩)
      · exact Or.inl h
      · exact Or.inr ⟨e.2, by simp⟩
      · exact Or.inr ⟨t, List.mem_cons_of_mem _ ht⟩
    · rintro (h | ⟨t, ht⟩)
      · exact Or.inl (Or.inl h)
      · rcases List.mem_cons.mp ht with h1 | h2
        · exact Or.inl (Or.inr (congrArg Prod.fst h1))
        · exact Or.inr ⟨t, h2⟩

theorem mem_graphKeys_forwardGraph (es : List (String × String)) (s : String) :
    s ∈ graphKeys (forwardGraph es) ↔ ∃ t, (s, t) ∈ es := by
  have := mem_graphKeys_forward_foldl es s []
  simpa [forwardGraph, graphKeys] using this

theorem graphKeys_nodup_addEdge (g : Graph) (k v : String)
    (h : (graphKeys g).Nodup) : (graphKeys (addEdge g k v)).Nodup := by
  rw [graphKeys_addEdge]
  cases hA : g.any (fun p => p.1 = k) with
  | false =>
    rw [if_neg (by simp)]
    have hk : k ∉ graphKeys g := by
      intro hmem
      obtain ⟨p, hp, hps⟩ := List.mem_map.mp hmem
      have := (List.any_eq_false.mp hA) p hp
      simp [hps] at this
    simpa [List.nodup_append] using ⟨h, hk⟩
  | true => rw [if_pos rfl]; exact h

theorem mem_graphPairs (g : Graph) (q : String × String) :
    q ∈ graphPairs g ↔ ∃ p ∈ g, q.1 = p.1 ∧ q.2 ∈ p.2 := by
  simp only [graphPairs, List.mem_flatMap, List.mem_map]
  constructor
  · rintro ⟨p, hp, t, ht, rfl⟩
    exact ⟨p, hp, rfl, ht⟩
  · rintro ⟨p, hp, h1, h2⟩
    exact ⟨p, hp, q.2, h2, by rw [← h1]⟩

theorem mem_graphPairs_iff_getD (g : Graph) (q : String × String)
    (h : (graphKeys g).Nodup) : q ∈ graphPairs g ↔ q.2 ∈ graphGetD g q.1 := by
  induction g with
  | nil => simp [graphPairs, graphGetD]
  | cons p g' ih =>
    have hkeys : p.1 ∉ graphKeys g' ∧ (graphKeys g').Nodup := by
      simpa [graphKeys] using h
    rw [mem_graphPairs]
    by_cases hq : q.1 = p.1
    · have hG : graphGetD (p :: g') q.1 = p.2 := by
        simp [graphGetD, List.find?_cons, hq]
      rw [hG]
      constructor
      · rintro ⟨p', hp', h1, h2⟩
        rcases List.mem_cons.mp hp' with rfl | hmem
        · exact h2
        · exact absurd (List.mem_map.mpr ⟨p', hmem, h1.symm.trans hq⟩) hkeys.1
      · intro ht
        exact ⟨p, List.mem_cons_self _ _, hq, ht⟩
    · have hG : graphGetD (p :: g') q.1 = graphGetD g' q.1 := by
        simp [graphGetD, List.find?_cons, hq, Ne.symm hq]
      rw [hG, ← (ih hkeys.2), mem_graphPairs]
      constructor
      · rintro ⟨p', hp', h1, h2⟩
        rcases List.mem_cons.mp hp' with rfl | hmem
        · exact absurd h1 hq
        · exact ⟨p', hmem, h1, h2⟩
      · rintro ⟨p', hp', h1, h2⟩
        exact ⟨p', List.mem_cons_of_mem _ hp', h1, h2⟩

theorem graphKeys_nodup_forwardGraph (es : List (String × String)) :
    (graphKeys (forwardGraph es)).Nodup := by
  have aux : ∀ g0 : Graph, (graphKeys g0).Nodup →
      (graphKeys (es.foldl (fun g e => addEdge g e.1 e.2) g0)).Nodup := by
    induction es with
    | nil => intro g0 h; simpa using h
    | cons e es ih =>
      intro g0 h
      rw [List.foldl_cons]
      exact ih _ (graphKeys_nodup_addEdge _ _ _ h)
  exact aux [] (by simp [graphKeys])

theorem graphKeys_nodup_reverseGraph (es : List (String × String)) :
    (graphKeys (reverseGraph es)).Nodup := by
  have aux : ∀ g0 : Graph, (graphKeys g0).Nodup →
      (graphKeys (es.foldl (fun g e => addEdge g e.2 e.1) g0)).Nodup := by
    induction es with
    | nil => intro g0 h; simpa using h
    | cons e es ih =>
      intro g0 h
      rw [List.foldl_cons]
      exact ih _ (graphKeys_nodup_addEdge _ _ _ h)
  exact aux [] (by simp [graphKeys])

theorem mem_graphGetD_dirInner (src : String) (ts : List String) (s t' : String) :
    ∀ acc : Graph,
      t' ∈ graphGetD
          (ts.foldl
            (fun acc2 t => if dirOf src ≠ dirOf t then addEdge acc2 (dirOf src) (dirOf t)
              else acc2) acc) s
        ↔ t' ∈ graphGetD acc s
          ∨ ∃ tg ∈ ts, dirOf src ≠ dirOf tg ∧ s = dirOf src ∧ t' = dirOf tg := by
  induction ts with
  | nil => intro acc; simp
  | cons tg ts ih =>
    intro acc
    rw [List.foldl_cons]
    by_cases hd : dirOf src ≠ dirOf tg
    · rw [if_pos hd, ih, mem_graphGetD_addEdge]
      constructor
      · rintro ((h | ⟨rfl, rfl⟩) | ⟨tg', htg', h1, h2, h3⟩)
        · exact Or.inl h
        · exact Or.inr ⟨tg, List.mem_cons_self _ _, hd, rfl, rfl⟩
        · exact Or.inr ⟨tg', List.mem_cons_of_mem _ htg', h1, h2, h3⟩
      · rintro (h | ⟨tg', htg', h1, rfl, rfl⟩)
        · exact Or.inl (Or.inl h)
        · rcases List.mem_cons.mp htg' with rfl | hmem
          · exact Or.inl (Or.inr ⟨rfl, rfl⟩)
          · exact Or.inr ⟨tg', hmem, h1, rfl, rfl⟩
    · rw [if_neg hd, ih]
      constructor
      · rintro (h | ⟨tg', htg', h1, h2, h3⟩)
        · exact Or.inl h
        · exact Or.inr ⟨tg', List.mem_cons_of_mem _ htg', h1, h2, h3⟩
      · rintro (h | ⟨tg', htg', h1, h2, h3⟩)
        · exact Or.inl h
        · rcases List.mem_cons.mp htg' with rfl | hmem
          · exact absurd h1 hd
          · exact Or.inr ⟨tg', hmem, h1, h2, h3⟩

theorem mem_graphGetD_dirDependencies (fwd : Graph) (s t' : String) :
    t' ∈ graphGetD (dirDependencies fwd) s
      ↔ ∃ e ∈ fwd, ∃ tg ∈ e.2, dirOf e.1 ≠ dirOf tg ∧ s = dirOf e.1 ∧ t' = dirOf tg := by
  have aux : ∀ acc : Graph,
      t' ∈ graphGetD
          (fwd.foldl
            (fun acc e =>
              e.2.foldl
                (fun acc2 t => if dirOf e.1 ≠ dirOf t then addEdge acc2 (dirOf e.1) (dirOf t)
                  else acc2) acc) acc) s
        ↔ t' ∈ graphGetD acc s
          ∨ ∃ e ∈ fwd, ∃ tg ∈ e.2, dirOf e.1 ≠ dirOf tg ∧ s = dirOf e.1 ∧ t' = dirOf tg := by
    induction fwd with
    | nil => intro acc; simp
    | cons e fwd ih =>
      intro acc
      rw [List.foldl_cons, ih, mem_graphGetD_dirInner]
      constructor
      · rintro ((h | ⟨tg, htg, h1, h2, h3⟩) | ⟨e', he', tg, htg, h1, h2, h3⟩)
        · exact Or.inl h
        · exact Or.inr ⟨e, List.mem_cons_self _ _, tg, htg, h1, h2, h3⟩
        · exact Or.inr ⟨e', List.mem_cons_of_mem _ he', tg, htg, h1, h2, h3⟩
      · rintro (h | ⟨e', he', tg, htg, h1, h2, h3⟩)
        · exact Or.inl (Or.inl h)
        · rcases List.mem_cons.mp he' with rfl | hmem
          · exact Or.inl (Or.inr ⟨tg, htg, h1, h2, h3⟩)
          · exact Or.inr ⟨e', hmem, tg, htg, h1, h2, h3⟩
  have := aux []
  simpa [dirDependencies, graphGetD] using this

theorem graphKeys_nodup_dirDependencies (fwd : Graph) :
    (graphKeys (dirDependencies fwd)).Nodup := by
  have inner : ∀ (src : String) (ts : List String) (acc : Graph), (graphKeys acc).Nodup →
      (graphKeys
        (ts.foldl
          (fun acc2 t => if dirOf src ≠ dirOf t then addEdge acc2 (dirOf src) (dirOf t)
            else acc2) acc)).Nodup := by
    intro src ts
    induction ts with
    | nil => intro acc h; simpa using h
    | cons tg ts ih =>
      intro acc h
      rw [List.foldl_cons]
      by_cases hd : dirOf src ≠ dirOf tg
      · rw [if_pos hd]; exact ih _ (graphKeys_nodup_addEdge _ _ _ h)
      · rw [if_neg hd]; exact ih _ h
  have aux : ∀ acc : Graph, (graphKeys acc).Nodup →
      (graphKeys
        (fwd.foldl
          (fun acc e =>
            e.2.foldl
              (fun acc2 t => if dirOf e.1 ≠ dirOf t then addEdge acc2 (dirOf e.1) (dirOf t)
                else acc2) acc) acc)).Nodup := by
    induction fwd with
    | nil => intro acc h; simpa using h
    | cons e fwd ih =>
      intro acc h
      rw [List.foldl_cons]
      exact ih _ (inner e.1 e.2 acc h)
  exact aux [] (by simp [graphKeys])

theorem mem_graphKeys_listAppendEntry (g : Graph) (k v s : String) :
    s ∈ graphKeys (listAppendEntry g k v) ↔ s ∈ graphKeys g ∨ s = k := by
  unfold listAppendEntry
  cases hA : g.any (fun p => p.1 = k) with
  | false => simp [graphKeys]
  | true =>
    obtain ⟨p0, hp0, hk⟩ := List.any_eq_true.mp hA
    simp only [decide_eq_true_eq] at hk
    have hkeys : ((g.map (fun p => if p.1 = k then (p.1, p.2 ++ [v]) else p)).map
        (fun p => p.1)) = g.map (fun p => p.1) := by
      rw [List.map_map]
      apply List.map_congr_left
      intro p hp
      by_cases hpk : p.1 = k <;> simp [hpk]
    rw [if_pos rfl]
    show s ∈ (g.map (fun p => if p.1 = k then (p.1, p.2 ++ [v]) else p)).map (fun p => p.1) ↔ _
    rw [hkeys]
    constructor
    · exact fun h => Or.inl h
    · rintro (h | rfl)
      · exact h
      · exact List.mem_map.mpr ⟨p0, hp0, hk⟩

theorem mem_graphKeys_dirToFiles (fileData : List FileRec) (d : String) :
    d ∈ graphKeys (dirToFiles fileData) ↔ ∃ fi ∈ fileData, dirOf fi.path = d := by
  have aux : ∀ acc : Graph,
      d ∈ graphKeys (fileData.foldl (fun acc fi => listAppendEntry acc (dirOf fi.path) fi.path) acc)
        ↔ d ∈ graphKeys acc ∨ ∃ fi ∈ fileData, dirOf fi.path = d := by
    induction fileData with
    | nil => intro acc; simp
    | cons fi fd ih =>
      intro acc
      rw [List.foldl_cons, ih, mem_graphKeys_listAppendEntry]
      constructor
      · rintro ((h | rfl) | ⟨fi', hfi', h1⟩)
        · exact Or.inl h
        · exact Or.inr ⟨fi, List.mem_cons_self _ _, rfl⟩
        · exact Or.inr ⟨fi', List.mem_cons_of_mem _ hfi', h1⟩
      · rintro (h | ⟨fi', hfi', h1⟩)
        · exact Or.inl (Or.inl h)
        · rcases List.mem_cons.mp hfi' with rfl | hmem
          · exact Or.inl (Or.inr h1.symm)
          · exact Or.inr ⟨fi', hmem, h1⟩
  have := aux []
  simpa [dirToFiles, graphKeys] using this

theorem importEdge_eq_some_src (fd : List FileRec) (mp : List (String × String))
    (fp : String) (imp : ImportInfo) (q : String × String)
    (h : importEdge fd mp fp imp = some q) : q.1 = fp := by
  unfold importEdge at h
  cases hm : moduleNameOf imp with
  | none => rw [hm] at h; exact absurd h (by simp)
  | some m =>
    rw [hm] at h
    dsimp only at h
    by_cases h0 : m = ""
    · rw [if_pos h0] at h; exact absurd h (by simp)
    · rw [if_neg h0] at h
      cases hb : (strStartsWith m "http" || strStartsWith m "https" || strStartsWith m "@") with
      | true => rw [hb] at h; exact absurd h (by simp)
      | false =>
        rw [hb] at h
        cases hr : resolveImport fd mp fp m with
        | none => rw [hr] at h; exact absurd h (by simp)
        | some t =>
          rw [hr] at h
          have : (fp, t) = q := by simpa using h
          rw [← this]

theorem parseFiles_mem_mono (run : String → Except PyExn ParseResult) (files : List String) :
    ∀ (acc : List (String × ParseResult)) (x : String × ParseResult), x ∈ acc →
      x ∈ files.foldl
        (fun acc fp => match run fp with | .ok r => acc ++ [(fp, r)] | .error _ => acc) acc := by
  induction files with
  | nil => intro acc x hx; simpa using hx
  | cons f fs ih =>
    intro acc x hx
    rw [List.foldl_cons]
    cases hr : run f with
    | ok r => exact ih _ _ (List.mem_append_left _ hx)
    | error e => exact ih _ _ hx

theorem parseFiles_mem_of_ok (run : String → Except PyExn ParseResult) (files : List String) :
    ∀ (acc : List (String × ParseResult)) (fp : String) (r : ParseResult),
      fp ∈ files → run fp = Except.ok r →
      (fp, r) ∈ files.foldl
        (fun acc fp => match run fp with | .ok r => acc ++ [(fp, r)] | .error _ => acc) acc := by
  induction files with
  | nil => intro acc fp r h _; exact absurd h (List.not_mem_nil _)
  | cons f fs ih =>
    intro acc fp r hmem hok
    rw [List.foldl_cons]
    rcases List.mem_cons.mp hmem with rfl | hmem'
    · rw [hok]
      exact parseFiles_mem_mono run fs _ _ (by simp)
    · exact ih _ _ _ hmem' hok

theorem flood_empty (p : String) : flood [] [] (floodFuel [] []) [p] [] = [p] := by
  rfl

theorem componentsAux_empty_graph :
    ∀ (fs : List FileRec) (visited : List String) (acc : List (List String)),
      componentsAux [] [] fs visited acc = acc := by
  intro fs
  induction fs with
  | nil => intro visited acc; rfl
  | cons f fs ih =>
    intro visited acc
    show componentsAux [] [] (f :: fs) visited acc = acc
    rw [componentsAux]
    by_cases hv : f.path ∈ visited
    · rw [if_pos hv]; exact ih _ _
    · rw [if_neg hv, flood_empty]
      simp only [List.length_singleton]
      rw [if_neg (by norm_num)]
      exact ih _ _

theorem insertDesc_perm (x : KeyModule) (l : List KeyModule) :
    (insertDesc x l).Perm (x :: l) := by
  induction l with
  | nil => exact List.Perm.refl _
  | cons y ys ih =>
    show (if y.dependents_count < x.dependents_count then x :: y :: ys
        else y :: insertDesc x ys).Perm (x :: y :: ys)
    by_cases h : y.dependents_count < x.dependents_count
    · rw [if_pos h]
    · rw [if_neg h]
      exact (ih.cons y).trans (List.Perm.swap x y ys)

theorem sortByCountDesc_perm (l : List KeyModule) : (sortByCountDesc l).Perm l := by
  have aux : ∀ acc : List KeyModule,
      (l.foldl (fun acc x => insertDesc x acc) acc).Perm (acc ++ l) := by
    induction l with
    | nil => intro acc; simp
    | cons x xs ih =>
      intro acc
      rw [List.foldl_cons]
      refine (ih (insertDesc x acc)).trans ?_
      refine (((insertDesc_perm x acc).append_right xs).trans ?_)
      show (x :: (acc ++ xs)).Perm (acc ++ x :: xs)
      exact List.perm_middle.symm
  have := aux []
  simpa using this

theorem insertDesc_sorted (x : KeyModule) (l : List KeyModule)
    (h : l.Pairwise (fun a b => b.dependents_count ≤ a.dependents_count)) :
    (insertDesc x l).Pairwise (fun a b => b.dependents_count ≤ a.dependents_count) := by
  induction l with
  | nil => simp [insertDesc]
  | cons y ys ih =>
    rw [List.pairwise_cons] at h
    show (if y.dependents_count < x.dependents_count then x :: y :: ys
        else y :: insertDesc x ys).Pairwise _
    by_cases hc : y.dependents_count < x.dependents_count
    · rw [if_pos hc]
      refine List.Pairwise.cons ?_ (List.Pairwise.cons h.1 h.2)
      intro b hb
      rcases List.mem_cons.mp hb with rfl | hbm
      · exact Nat.le_of_lt hc
      · exact le_trans (h.1 b hbm) (Nat.le_of_lt hc)
    · rw [if_neg hc]
      refine List.Pairwise.cons ?_ (ih h.2)
      intro b hb
      rcases List.mem_cons.mp ((insertDesc_perm x ys).mem_iff.mp hb) with rfl | hbm
      · exact Nat.le_of_not_lt hc
      · exact h.1 b hbm

theorem sortByCountDesc_sorted (l : List KeyModule) :
    (sortByCountDesc l).Pairwise (fun a b => b.dependents_count ≤ a.dependents_count) := by
  have aux : ∀ acc : List KeyModule,
      acc.Pairwise (fun a b => b.dependents_count ≤ a.dependents_count) →
      (l.foldl (fun acc x => insertDesc x acc) acc).Pairwise
        (fun a b => b.dependents_count ≤ a.dependents_count) := by
    induction l with
    | nil => intro acc h; simpa using h
    | cons x xs ih =>
      intro acc h
      rw [List.foldl_cons]
      exact ih _ (insertDesc_sorted x acc h)
  exact aux [] List.Pairwise.nil

theorem insertDesc_filter_count (x : KeyModule) (l : List KeyModule) (c : Nat)
    (h : l.Pairwise (fun a b => b.dependents_count ≤ a.dependents_count)) :
    (insertDesc x l).filter (fun a => a.dependents_count = c)
      = if x.dependents_count = c
          then l.filter (fun a => a.dependents_count = c) ++ [x]
          else l.filter (fun a => a.dependents_count = c) := by
  induction l with
  | nil => by_cases hx : x.dependents_count = c <;> simp [insertDesc, hx]
  | cons y ys ih =>
    rw [List.pairwise_cons] at h
    show (if y.dependents_count < x.dependents_count then x :: y :: ys
        else y :: insertDesc x ys).filter _ = _
    by_cases hc : y.dependents_count < x.dependents_count
    · rw [if_pos hc]
      by_cases hx : x.dependents_count = c
      · rw [if_pos hx]
        have hempty : (y :: ys).filter (fun a => a.dependents_count = c) = [] := by
          rw [List.filter_eq_nil_iff]
          intro a ha
          rcases List.mem_cons.mp ha with rfl | ham
          · simp only [decide_eq_true_eq]
            omega
          · have hle := h.1 a ham
            simp only [decide_eq_true_eq]
            omega
        rw [List.filter_cons_of_pos (by simpa using hx), hempty]
        simp [hempty]
      · rw [if_neg hx]
        rw [List.filter_cons_of_neg (by simpa using hx)]
    · rw [if_neg hc]
      by_cases hx : x.dependents_count = c <;> by_cases hy : y.dependents_count = c <;>
        simp [List.filter_cons, hx, hy, ih h.2]

theorem sortByCountDesc_filter_stable (l : List KeyModule) (c : Nat) :
    (sortByCountDesc l).filter (fun a => a.dependents_count = c)
      = l.filter (fun a => a.dependents_count = c) := by
  have aux : ∀ acc : List KeyModule,
      acc.Pairwise (fun a b => b.dependents_count ≤ a.dependents_count) →
      (l.foldl (fun acc x => insertDesc x acc) acc).filter (fun a => a.dependents_count = c)
        = acc.filter (fun a => a.dependents_count = c)
          ++ l.filter (fun a => a.dependents_count = c) := by
    induction l with
    | nil => intro acc h; simp
    | cons x xs ih =>
      intro acc h
      rw [List.foldl_cons, ih _ (insertDesc_sorted x acc h), insertDesc_filter_count x acc c h]
      by_cases hx : x.dependents_count = c
      · rw [if_pos hx, List.filter_cons_of_pos (by simpa using hx), List.append_assoc]
        simp
      · rw [if_neg hx, List.filter_cons_of_neg (by simpa using hx)]
  have := aux [] List.Pairwise.nil
  simpa using this

theorem identifyKeyModules_pre (fd : List FileRec) (pr : List (String × ParseResult))
    (rev : Graph) (thr : Nat) :
    rev.foldl
        (fun acc entry =>
          if entry.2.length ≥ thr then acc ++ [mkKeyModule fd pr entry] else acc) []
      = (rev.filter (fun entry => entry.2.length ≥ thr)).map (mkKeyModule fd pr) := by
  have aux : ∀ acc : List KeyModule,
      rev.foldl
          (fun acc entry =>
            if entry.2.length ≥ thr then acc ++ [mkKeyModule fd pr entry] else acc) acc
        = acc ++ (rev.filter (fun entry => entry.2.length ≥ thr)).map (mkKeyModule fd pr) := by
    induction rev with
    | nil => intro acc; simp
    | cons e es ih =>
      intro acc
      rw [List.foldl_cons]
      by_cases he : e.2.length ≥ thr
      · rw [if_pos he, ih, List.filter_cons_of_pos (by simpa using he)]
        simp
      · rw [if_neg he, ih, List.filter_cons_of_neg (by simpa using he)]
  have := aux []
  simpa using this

theorem scanForEnd_succ (ls : List String) (i : Nat) :
    scanForEnd ls (i + 1) = if checkEnd ls (i + 1) then some (i + 1) else scanForEnd ls i :=
  rfl

theorem scanForEnd_skip (ls : List String) (i : Nat) :
    ∀ k : Nat, (∀ j, i < j → j ≤ i + k → checkEnd ls j = false) →
      scanForEnd ls (i + k) = scanForEnd ls i := by
  intro k
  induction k with
  | zero => intro _; rfl
  | succ k ih =>
    intro h
    have hck : checkEnd ls (i + k + 1) = false := h (i + k + 1) (by omega) (by omega)
    calc scanForEnd ls (i + (k + 1)) = scanForEnd ls (i + k + 1) := by rw [Nat.add_succ]
      _ = scanForEnd ls (i + k) := by
          rw [scanForEnd_succ, hck]
          simp
      _ = scanForEnd ls i := ih (fun j h1 h2 => h j h1 (by omega))

theorem scanForStart_isSome (ls : List String) (h0 : checkStart ls 0 = true) :
    ∀ (i : Nat) (acc : List String), (scanForStart ls i acc).isSome = true := by
  intro i
  induction i with
  | zero =>
    intro acc
    unfold scanForStart
    unfold checkStart at h0
    rw [if_pos h0]
    rfl
  | succ i ih =>
    intro acc
    unfold scanForStart
    by_cases hc : strStartsWith (strTrim (ls.getD (i + 1) "")) "/**" = true
    · rw [if_pos hc]; rfl
    · rw [if_neg hc]; exact ih _

theorem getD_mem_of_lt (l : List String) (n : Nat) (d : String) (h : n < l.length) :
    l.getD n d ∈ l := by
  simp [List.getD_eq_getElem?_getD, List.getElem?_eq_getElem h]

/-! ## Claim theorems: general statements and witnesses -/

/-- C2: the Dependency Graph Builder is order-independent — for any two orderings (permutations) of the same fact-record collection, building with the same Module Index yields the same forward edge set and the same reverse edge set on the built adjacency maps. -/
theorem c2_builder_order_independent (fd : List FileRec) (mp : List (String × String))
    (l1 l2 : List (String × ParseResult)) (h : l1.Perm l2) :
    (graphPairs (forwardGraph (buildEdges fd mp l1))).toFinset
        = (graphPairs (forwardGraph (buildEdges fd mp l2))).toFinset
    ∧ (graphPairs (reverseGraph (buildEdges fd mp l1))).toFinset
        = (graphPairs (reverseGraph (buildEdges fd mp l2))).toFinset := by
  have hp : (buildEdges fd mp l1).Perm (buildEdges fd mp l2) := h.flatMap_right _
  constructor
  · apply List.toFinset.ext
    intro q
    rw [mem_graphPairs_iff_getD _ _ (graphKeys_nodup_forwardGraph _),
      mem_graphPairs_iff_getD _ _ (graphKeys_nodup_forwardGraph _),
      mem_graphGetD_forwardGraph, mem_graphGetD_forwardGraph]
    exact hp.mem_iff
  · apply List.toFinset.ext
    intro q
    rw [mem_graphPairs_iff_getD _ _ (graphKeys_nodup_reverseGraph _),
      mem_graphPairs_iff_getD _ _ (graphKeys_nodup_reverseGraph _),
      mem_graphGetD_reverseGraph, mem_graphGetD_reverseGraph]
    exact hp.mem_iff

/-- Witness for C2 at a concrete two-record input, discharging the permutation hypothesis with an explicit transposition. -/
theorem c2_witness :
    (graphPairs (forwardGraph
        (buildEdges c2Files (buildModuleMapping c2Files) [c2RecA, c2RecB]))).toFinset
      = (graphPairs (forwardGraph
          (buildEdges c2Files (buildModuleMapping c2Files) [c2RecB, c2RecA]))).toFinset
    ∧ (graphPairs (reverseGraph
        (buildEdges c2Files (buildModuleMapping c2Files) [c2RecA, c2RecB]))).toFinset
      = (graphPairs (reverseGraph
          (buildEdges c2Files (buildModuleMapping c2Files) [c2RecB, c2RecA]))).toFinset :=
  c2_builder_order_independent c2Files (buildModuleMapping c2Files) _ _
    (List.Perm.swap c2RecB c2RecA [])

/-- C3 (amended): key-module ranking returns exactly the reverse-graph entries with at least the threshold number of dependents (the result is a permutation of the filtered entries), sorted by dependent count descending; ties keep the reverse-adjacency insertion order — at every fixed count the result restricted to that count equals the filtered input in its original order — rather than path lexical order. -/
theorem c3_amended (fd : List FileRec) (pr : List (String × ParseResult))
    (rev : Graph) (thr : Nat) :
    ((identifyKeyModules fd pr rev thr).Perm
        ((rev.filter (fun e => e.2.length ≥ thr)).map (mkKeyModule fd pr)))
    ∧ (identifyKeyModules fd pr rev thr).Pairwise
        (fun a b => b.dependents_count ≤ a.dependents_count)
    ∧ ∀ c : Nat,
        (identifyKeyModules fd pr rev thr).filter (fun a => a.dependents_count = c)
          = ((rev.filter (fun e => e.2.length ≥ thr)).map (mkKeyModule fd pr)).filter
              (fun a => a.dependents_count = c) := by
  unfold identifyKeyModules
  rw [identifyKeyModules_pre]
  exact ⟨sortByCountDesc_perm _, sortByCountDesc_sorted _,
    fun c => sortByCountDesc_filter_stable _ c⟩

/-- C4 (amended): the reported isolated-file count equals the number of files that are the source of no edge; only absence from the forward adjacency keys is consulted, reverse edges play no part. -/
theorem c4_amended (fd : List FileRec) (es : List (String × String)) :
    (calcMetrics fd (forwardGraph es) (reverseGraph es)).isolated_files
      = (fd.filter (fun f => es.all (fun e => ¬ e.1 = f.path))).length := by
  show (fd.filter (fun f => ¬ (graphKeys (forwardGraph es)).contains f.path)).length = _
  congr 1
  apply List.filter_congr
  intro f _
  rw [Bool.eq_iff_iff]
  have hmem : f.path ∈ graphKeys (forwardGraph es) ↔ ∃ t, (f.path, t) ∈ es :=
    mem_graphKeys_forwardGraph es f.path
  simp only [decide_eq_true_eq, List.all_eq_true, List.contains_iff_exists_mem_beq]
  constructor
  · intro hno e he hef
    apply hno
    refine ⟨f.path, ?_, by simp⟩
    rw [hmem]
    exact ⟨e.2, by rw [← hef]; simpa using he⟩
  · intro hall hx
    obtain ⟨y, hy, hbeq⟩ := hx
    have hyp : f.path = y := by simpa using hbeq
    subst hyp
    obtain ⟨t, ht⟩ := hmem.mp hy
    exact hall (f.path, t) ht rfl

/-- C5 (amended): the upward scan is unbounded — a documentation block whose closing-marker line sits anywhere above the declaration line is attached whenever an opening-marker line sits above that, no matter how many blank or code lines (any lines whose stripped text does not end in the closing marker) separate the block from the declaration. -/
theorem c5_amended (first : String) (mid : List String) (last : String)
    (gap : List String) (decl : String)
    (hlast : strEndsWith (strTrim last) "*/" = true)
    (hfirst : strStartsWith (strTrim first) "/**" = true)
    (hgap : ∀ g ∈ gap, strEndsWith (strTrim g) "*/" = false) :
    (extractJsdocLines (first :: (mid ++ last :: (gap ++ [decl])))
        (mid.length + gap.length + 3)).isSome = true := by
  set L := first :: (mid ++ last :: (gap ++ [decl])) with hL
  have hlen : L.length = mid.length + gap.length + 3 := by
    simp [hL]
    omega
  have hAt_last : L.getD (mid.length + 1) "" = last := by
    rw [hL, List.getD_cons_succ, List.getD_eq_getElem?_getD,
      List.getElem?_append_right (Nat.le_refl mid.length)]
    simp
  have hAt_gap : ∀ j, j < gap.length → L.getD (mid.length + 2 + j) "" = gap.getD j "" := by
    intro j hj
    rw [hL, show mid.length + 2 + j = (mid.length + 1 + j) + 1 by omega, List.getD_cons_succ,
      List.getD_eq_getElem?_getD,
      List.getElem?_append_right (by omega : mid.length ≤ mid.length + 1 + j),
      show mid.length + 1 + j - mid.length = j + 1 by omega,
      List.getElem?_cons_succ, List.getElem?_append_left hj, ← List.getD_eq_getElem?_getD]
  have hend_last : checkEnd L (mid.length + 1) = true := by
    unfold checkEnd
    rw [hAt_last]
    exact hlast
  have hscan : scanForEnd L (mid.length + gap.length + 1) = some (mid.length + 1) := by
    have hskip := scanForEnd_skip L (mid.length + 1) gap.length (by
      intro j h1 h2
      have hj' : j = mid.length + 2 + (j - mid.length - 2) := by omega
      have hjlt : j - mid.length - 2 < gap.length := by omega
      rw [hj']
      unfold checkEnd
      rw [hAt_gap _ hjlt]
      exact hgap _ (getD_mem_of_lt gap _ "" hjlt))
    rw [show mid.length + gap.length + 1 = mid.length + 1 + gap.length by omega, hskip,
      scanForEnd_succ, hend_last]
    simp
  unfold extractJsdocLines
  rw [if_neg (by rw [hlen]; omega)]
  rw [if_neg (by omega)]
  rw [show mid.length + gap.length + 3 - 2 = mid.length + gap.length + 1 by omega, hscan]
  show ((scanForStart L mid.length [strTrim (L.getD (mid.length + 1) "")]).map
      cleanJsdoc).isSome = true
  have hsome := scanForStart_isSome L (by
    unfold checkStart
    show strStartsWith (strTrim first) "/**" = true
    exact hfirst) mid.length [strTrim (L.getD (mid.length + 1) "")]
  obtain ⟨v, hv⟩ := Option.isSome_iff_exists.mp hsome
  rw [hv]
  rfl

/-- Witness for C5 (amended): a block separated from its declaration by a blank line and a code line is still attached. -/
theorem c5_amended_witness :
    (extractJsdocLines
        ("/**" :: (([" * doc"] : List String) ++ " */" ::
          ((["", "const x = 1;"] : List String) ++ ["function foo()"])))
        (([" * doc"] : List String).length + (["", "const x = 1;"] : List String).length + 3)
      ).isSome = true :=
  c5_amended "/**" [" * doc"] " */" ["", "const x = 1;"] "function foo()"
    (by decide) (by decide) (by decide)

/-- C6: the claim says a language adapter returns a FactRecord or an
explicit parse-failure marker for every input text and never raises an
uncaught error to its caller.  Evaluating the embedded adapter at the
failing inputs shows two uncaught propagation paths: the constructor
catches only SyntaxError, so the ValueError that ast.parse raises on
null-byte source escapes to the caller; and the endpoint extraction run
inside parse evaluates `.value.id` on the nested Django view
`views.detail.page` and raises AttributeError (python_parser.py line 353)
on a syntactically valid module.  A genuine syntax error, by contrast, is
caught and produces the explicit error dict, and the pipeline's per-file
try/except still continues with the remaining files after a raising
file. -/
theorem c6_adapter_raises_uncaught :
    pythonParserRun c6NullByteParse "f.py" (some "x = 1\x00")
        = .error (.valueError "source code string cannot contain null bytes")
    ∧ pythonParserParse "urls.py" (some c6DjangoAst)
        = .error (.attributeError "'Attribute' object has no attribute 'id'")
    ∧ pythonParserRun c6SyntaxErrParse "bad.py" (some "def f(:")
        = .ok { error := some "Could not parse file" }
    ∧ ("b.py", ({} : ParseResult)) ∈ parseFiles c6Run ["a.py", "b.py"] := by
  exact ⟨rfl, rfl, rfl, by decide⟩

/-- C7 (amended): the collapse is driven by the forward-adjacency key count — when more than 50 files have outgoing edges the visualization graph is the directory-level graph, whose node ids are exactly the directories containing files and whose edges connect two distinct directories exactly when some file of the first imports some file of the second. -/
theorem c7_amended (fd : List FileRec) (fwd rev : Graph) (d d1 d2 : String)
    (h : fwd.length > 50) :
    createSimplifiedGraph fd fwd rev 50 = createDirectoryLevelGraph fd fwd
    ∧ (d ∈ dirNodeIds fd fwd ↔ ∃ fi ∈ fd, dirOf fi.path = d)
    ∧ ((d1, d2) ∈ dirLevelEdges fwd
        ↔ d1 ≠ d2 ∧ ∃ e ∈ fwd, dirOf e.1 = d1 ∧ ∃ tg ∈ e.2, dirOf tg = d2) := by
  refine ⟨?_, ?_, ?_⟩
  · unfold createSimplifiedGraph
    rw [if_pos h]
  · have hids : dirNodeIds fd fwd = graphKeys (dirToFiles fd) := by
      unfold dirNodeIds dirLevelNodes graphKeys
      rw [List.map_map]
      rfl
    rw [hids]
    exact mem_graphKeys_dirToFiles fd d
  · unfold dirLevelEdges
    rw [mem_graphPairs_iff_getD _ _ (graphKeys_nodup_dirDependencies fwd)]
    show d2 ∈ graphGetD (dirDependencies fwd) d1 ↔ _
    rw [mem_graphGetD_dirDependencies]
    constructor
    · rintro ⟨e, he, tg, htg, hne, rfl, rfl⟩
      exact ⟨hne, e, he, rfl, tg, htg, rfl⟩
    · rintro ⟨hne, e, he, h1, tg, htg, h2⟩
      exact ⟨e, he, tg, htg, by rw [h1, h2]; exact hne, h1.symm, h2.symm⟩

set_option maxRecDepth 400000 in
/-- Witness for C7 (amended) at a 51-source forward adjacency, discharging the node-budget hypothesis. -/
theorem c7_amended_witness :
    createSimplifiedGraph c7wFiles c7wFwd [] 50 = createDirectoryLevelGraph c7wFiles c7wFwd
    ∧ ("d0" ∈ dirNodeIds c7wFiles c7wFwd ↔ ∃ fi ∈ c7wFiles, dirOf fi.path = "d0")
    ∧ (("d0", "z") ∈ dirLevelEdges c7wFwd
        ↔ "d0" ≠ "z" ∧ ∃ e ∈ c7wFwd, dirOf e.1 = "d0" ∧ ∃ tg ∈ e.2, dirOf tg = "z") :=
  c7_amended c7wFiles c7wFwd [] "d0" "d0" "z" (by decide)

/-- C8 (amended): the graph contains the self-loop (f, f) exactly when some entry of f's own import list resolves back to f; no self-loop filtering exists, so a short-name lookup that maps an import token back to the importing file produces the edge. -/
theorem c8_amended (fd : List FileRec) (mp : List (String × String))
    (records : List (String × ParseResult)) (f : String) :
    (f, f) ∈ buildEdges fd mp records
      ↔ ∃ pr, (f, pr) ∈ records ∧ ∃ imps, pr.imports = some imps
          ∧ ∃ imp ∈ imps, importEdge fd mp f imp = some (f, f) := by
  unfold buildEdges
  rw [List.mem_flatMap]
  constructor
  · rintro ⟨entry, hentry, hmem⟩
    unfold fileEdges at hmem
    cases himp : entry.2.imports with
    | none => rw [himp] at hmem; exact absurd hmem (List.not_mem_nil _)
    | some imps =>
      rw [himp] at hmem
      obtain ⟨imp, himps, heq⟩ := List.mem_filterMap.mp hmem
      have hfp : entry.1 = f := (importEdge_eq_some_src _ _ _ _ _ heq).symm
      refine ⟨entry.2, ?_, imps, himp, imp, himps, ?_⟩
      · rw [← hfp]; exact hentry
      · rw [hfp] at heq; exact heq
  · rintro ⟨pr, hpr, imps, himp, imp, himps, heq⟩
    refine ⟨(f, pr), hpr, ?_⟩
    unfold fileEdges
    rw [himp]
    exact List.mem_filterMap.mpr ⟨imp, himps, heq⟩

/-- C9: the external-package short-circuit is a pure prefix test applied before any Module Index lookup — an import whose module token starts with http (hence also https) or with @ contributes no edge whatever the mapping contains, and deleting such an import from an import list leaves the produced edge list unchanged. -/
theorem c9_external_prefix_short_circuit (fd : List FileRec) (mp : List (String × String))
    (fp : String) (imp : ImportInfo) (m : String)
    (h1 : moduleNameOf imp = some m)
    (h2 : strStartsWith m "http" = true ∨ strStartsWith m "@" = true) :
    importEdge fd mp fp imp = none
    ∧ ∀ pre post : List ImportInfo,
        (pre ++ imp :: post).filterMap (importEdge fd mp fp)
          = (pre ++ post).filterMap (importEdge fd mp fp) := by
  have hnone : importEdge fd mp fp imp = none := by
    unfold importEdge
    rw [h1]
    dsimp only
    by_cases h0 : m = ""
    · rw [if_pos h0]
    · rw [if_neg h0]
      have hb : (strStartsWith m "http" || strStartsWith m "https" || strStartsWith m "@")
          = true := by
        rcases h2 with h | h <;> simp [h]
      simp [hb]
  refine ⟨hnone, fun pre post => ?_⟩
  simp [List.filterMap_append, List.filterMap_cons, hnone]

/-- Witness for C9: the Module Index maps the short name http_utils to the repository file http_utils.py, yet an import of exactly that token produces no edge. -/
theorem c9_witness :
    ("http_utils", "http_utils.py") ∈ buildModuleMapping c9Files
    ∧ importEdge c9Files (buildModuleMapping c9Files) "main.py" c9Import = none :=
  ⟨by decide,
   (c9_external_prefix_short_circuit c9Files (buildModuleMapping c9Files) "main.py"
      c9Import "http_utils" (by decide) (Or.inl (by decide))).1⟩

/-- C10 (amended): every component the metric counts has at least two members (graph nodes, which may include directory resolution targets rather than files), and when the dependency graph has no edges at all both connected_components and largest_component_size are 0 however many files exist. -/
theorem c10_amended :
    (∀ (fd : List FileRec) (fwd rev : Graph) (c : List String),
        c ∈ dependencyComponents fd fwd rev → 2 ≤ c.length)
    ∧ ∀ fd : List FileRec,
        (calcMetrics fd (forwardGraph []) (reverseGraph [])).connected_components = 0
        ∧ (calcMetrics fd (forwardGraph []) (reverseGraph [])).largest_component_size = 0 := by
  constructor
  · intro fd fwd rev c hc
    have aux : ∀ (fs : List FileRec) (visited : List String) (acc : List (List String)),
        (∀ c' ∈ acc, 2 ≤ c'.length) →
        ∀ c' ∈ componentsAux fwd rev fs visited acc, 2 ≤ c'.length := by
      intro fs
      induction fs with
      | nil => intro visited acc hacc c' hc'; exact hacc c' hc'
      | cons f fs ih =>
        intro visited acc hacc c' hc'
        rw [componentsAux] at hc'
        by_cases hv : f.path ∈ visited
        · rw [if_pos hv] at hc'
          exact ih _ _ hacc c' hc'
        · rw [if_neg hv] at hc'
          refine ih _ _ ?_ c' hc'
          intro c'' hc''
          by_cases hl : (flood fwd rev (floodFuel fwd rev) [f.path] []).length > 1
          · rw [if_pos hl] at hc''
            rcases List.mem_append.mp hc'' with h | h
            · exact hacc c'' h
            · have : c'' = flood fwd rev (floodFuel fwd rev) [f.path] [] := by
                simpa using h
              rw [this]
              exact hl
          · rw [if_neg hl] at hc''
            exact hacc c'' hc''
    exact aux fd [] [] (by intro c' hc'; exact absurd hc' (List.not_mem_nil _)) c hc
  · intro fd
    show (calcMetrics fd [] []).connected_components = 0
      ∧ (calcMetrics fd [] []).largest_component_size = 0
    have hcomps : dependencyComponents fd [] [] = [] := componentsAux_empty_graph fd [] []
    constructor
    · show (dependencyComponents fd [] []).length = 0
      rw [hcomps]; rfl
    · show (match dependencyComponents fd [] [] with
        | [] => 0
        | _ => ((dependencyComponents fd [] []).map List.length).foldl max 0) = 0
      rw [hcomps]

/-- Witness for C10 (amended): the counted component of the directory-import fixture has two members, and the empty-graph metrics vanish. -/
theorem c10_amended_witness :
    2 ≤ (["x.py", "a"] : List String).length
    ∧ (calcMetrics c10Files (forwardGraph []) (reverseGraph [])).connected_components = 0
    ∧ (calcMetrics c10Files (forwardGraph []) (reverseGraph [])).largest_component_size = 0 :=
  ⟨c10_amended.1 c10Files (forwardGraph c10Edges) (reverseGraph c10Edges) ["x.py", "a"]
      (by decide),
   (c10_amended.2 c10Files).1, (c10_amended.2 c10Files).2⟩


end RepoAnalyzer
